import Mathlib

/-!
Shallow embedding of the trusdx-go multiplexing protocol engine
(`main.go`): the inbound frame demultiplexer (`handleDataChunk`,
`receiveDataStream`), the mode-aware serializer (`sendDataStream`) and
the command splitter (`PushCommand`), together with theorems settling
the specification claims.  Bytes are modelled as `Nat` (no byte
arithmetic occurs in the modelled code); `59` is the ASCII delimiter
`;`, `85 83` is `US`, `58` is `:` (the escape byte `0x3A` is 58 and
`0x3B` is 59).
-/

namespace TrusdxGo

/-- `ss.chunkLength` / `dataChunkLength` in the source: 48. -/
def chunkLength : Nat := 48

/-- Concatenation of a list of byte lists (`bytes.Join` style helper
used to state conservation laws). -/
def concatAll (L : List (List Nat)) : List Nat :=
  L.foldr (fun a b => a ++ b) []

/-- Go `bytes.Buffer.ReadBytes(';')`: returns the bytes up to and
including the first `;` (`found = true`), or the whole buffer with
`io.EOF` (`found = false`).  Result: `(data, rest, found)`. -/
def readBytesSemi : List Nat → List Nat × List Nat × Bool
  | [] => ([], [], false)
  | b :: t =>
      if b = 59 then ([59], t, true)
      else
        match readBytesSemi t with
        | (d, r, f) => (b :: d, r, f)

/-- Go `bytes.CutSuffix(data, []byte(";"))`. -/
def cutSuffixSemi (l : List Nat) : List Nat × Bool :=
  match l.reverse with
  | 59 :: t => (t.reverse, true)
  | _ => (l, false)

/-- Go `bytes.HasPrefix(data, []byte("US"))`. -/
def startsWithUS : List Nat → Bool
  | a :: b :: _ => a == 85 && b == 83
  | _ => false

/-- An emitted frame.  `audio payload opener delim`: `opener` records
that a two-byte `US` sentinel was stripped in front of the payload,
`delim` that a trailing `;` was stripped behind it. -/
inductive Frame where
  | cat : List Nat → Frame
  | audio : List Nat → Bool → Bool → Frame
  deriving DecidableEq

/-- State of the inbound parser: the `isStreamingMode` flag and the
persistent `bytes.Buffer` accumulator of `receiveDataStream`. -/
structure DemuxState where
  streaming : Bool
  buffer : List Nat
  deriving DecidableEq

/-- `SerialStream.handleDataChunk`: extracts at most one frame from the
accumulator.  In the early-return branch Go drains the buffer with
`ReadBytes` and writes `data` back (`rest ++ data`, with `rest = []`
there since no delimiter was found). -/
def handleDataChunk (s : DemuxState) : DemuxState × List Frame :=
  if s.buffer = [] then (s, [])
  else
    let r := readBytesSemi s.buffer
    let data := r.1
    let rest := r.2.1
    let found := r.2.2
    if found = false ∧ data.length < chunkLength ∧ s.streaming = false then
      ({ s with buffer := rest ++ data }, [])
    else if s.streaming then
      let c := cutSuffixSemi data
      ({ streaming := !c.2, buffer := rest }, [Frame.audio c.1 false c.2])
    else if startsWithUS data then
      let c := cutSuffixSemi (data.drop 2)
      ({ streaming := true, buffer := rest }, [Frame.audio c.1 true c.2])
    else
      ({ streaming := false, buffer := rest }, [Frame.cat data])

/-- One iteration of `receiveDataStream`: append the bytes returned by
the read to the accumulator, then run `handleDataChunk` once. -/
def demuxStep (s : DemuxState) (chunk : List Nat) : DemuxState × List Frame :=
  handleDataChunk { streaming := s.streaming, buffer := s.buffer ++ chunk }

/-- `receiveDataStream` over a list of reads (a zero-length read is an
empty chunk); collects the emitted frames in emission order. -/
def runChunks : DemuxState → List (List Nat) → DemuxState × List Frame
  | s, [] => (s, [])
  | s, c :: cs =>
      match demuxStep s c with
      | (s1, fs1) =>
          match runChunks s1 cs with
          | (s2, fs2) => (s2, fs1 ++ fs2)

/-- Initial parser state (`NewSerialStream`: `isStreamingMode = false`,
fresh reset buffer). -/
def initDemux : DemuxState := { streaming := false, buffer := [] }

/-- The on-wire bytes a frame was extracted from: a CAT reply is
emitted verbatim; an audio frame had an optional `US` sentinel and an
optional trailing `;` stripped. -/
def wireBytes : Frame → List Nat
  | Frame.cat r => r
  | Frame.audio p op d =>
      (if op then [85, 83] else []) ++ p ++ (if d then [59] else [])

/-- The payload delivered on the queues (CAT replies keep their `;`). -/
def payloadOf : Frame → List Nat
  | Frame.cat r => r
  | Frame.audio p _ _ => p

/-- Concatenation, in emission order, of all emitted payloads. -/
def payloadConcat (fs : List Frame) : List Nat :=
  concatAll (fs.map payloadOf)

/-- Number of emitted frames that opened a streaming burst (a `US`
sentinel was stripped). -/
def openerCount (fs : List Frame) : Nat :=
  (fs.filter (fun f =>
    match f with
    | Frame.audio _ true _ => true
    | _ => false)).length

/-- Number of emitted frames that ended a streaming burst: frames of
the streaming branch whose trailing `;` was stripped (the parser leaves
streaming mode exactly there). -/
def burstEndCount (fs : List Frame) : Nat :=
  (fs.filter (fun f =>
    match f with
    | Frame.audio _ false true => true
    | _ => false)).length

/-! ## Mode-aware serializer (`sendDataStream`) -/

/-- `bytes.HasPrefix(cmd, []byte("RX"))`. -/
def startsWithRX : List Nat → Bool
  | a :: b :: _ => a == 82 && b == 88
  | _ => false

/-- `bytes.HasPrefix(cmd, []byte("TX"))`. -/
def startsWithTX : List Nat → Bool
  | a :: b :: _ => a == 84 && b == 88
  | _ => false

/-- The byte substitution applied by
`bytes.ReplaceAll(samples, []byte{0x3b}, []byte{0x3a})`. -/
def escSemi (b : Nat) : Nat := if b = 59 then 58 else b

/-- An item consumed by the `select` in `sendDataStream`: a command
from `CmdsBuf` or an audio frame from `AudioInBuf`. -/
inductive OutEvent where
  | cmdEv : List Nat → OutEvent
  | audioEv : List Nat → OutEvent
  deriving DecidableEq

/-- One observable action of the serializer on the link. -/
inductive WireItem where
  | sleepMs : Nat → WireItem
  | cmdW : List Nat → WireItem
  | guardW : WireItem
  | audioW : List Nat → WireItem
  deriving DecidableEq

/-- One `select` iteration of `sendDataStream`.  `tx` is the
`isTransmitting` flag; each emitted item is paired with the value of
the flag at the moment of emission.  The command path: a 10 ms pause
plus a `;` guard when already transmitting, clear the flag on an `RX`
prefix before the write, append `;` and write, set the flag and settle
10 ms on a `TX` prefix after the write (Go checks the `TX` prefix on
the command with the `;` already appended). -/
def sendStep (tx : Bool) (e : OutEvent) : Bool × List (Bool × WireItem) :=
  match e with
  | OutEvent.cmdEv c =>
      let pre := if tx then [(tx, WireItem.sleepMs 10), (tx, WireItem.guardW)] else []
      let tx1 := if startsWithRX c then false else tx
      let wire := c ++ [59]
      let tx2 := if startsWithTX wire then true else tx1
      let post := if startsWithTX wire then [(tx2, WireItem.sleepMs 10)] else []
      (tx2, pre ++ [(tx1, WireItem.cmdW wire)] ++ post)
  | OutEvent.audioEv smp =>
      if tx then (tx, [(tx, WireItem.audioW (smp.map escSemi))])
      else (tx, [])

/-- `sendDataStream` over a list of dequeued events, collecting the
wire actions in order. -/
def runSend : Bool → List OutEvent → Bool × List (Bool × WireItem)
  | tx, [] => (tx, [])
  | tx, e :: es =>
      match sendStep tx e with
      | (tx1, w1) =>
          match runSend tx1 es with
          | (tx2, w2) => (tx2, w1 ++ w2)

/-! ## Command splitter (`PushCommand`) -/

/-- Go `strings.Split(cmdString, ";")`: the (n+1) pieces between the n
delimiters. -/
def splitOnSemi : List Nat → List (List Nat)
  | [] => [[]]
  | b :: t =>
      if b = 59 then [] :: splitOnSemi t
      else (b :: (splitOnSemi t).headI) :: (splitOnSemi t).tail

/-- `strings.HasPrefix(cmd, "ID")`. -/
def startsWithID : List Nat → Bool
  | a :: b :: _ => a == 73 && b == 68
  | _ => false

/-- The canned identity reply `"ID020;"`. -/
def idReply : List Nat := [73, 68, 48, 50, 48, 59]

/-- The routing loop of `PushCommand` from piece index `i`: a piece is
routed when it is non-empty or is the first piece; `ID`-prefixed pieces
put `idReply` on the reply queue, the rest go to the command queue.
Result: `(CmdsBuf entries, RepliesBuf entries)` in enqueue order. -/
def routeFrom : Nat → List (List Nat) → List (List Nat) × List (List Nat)
  | _, [] => ([], [])
  | i, c :: rest =>
      match routeFrom (i + 1) rest with
      | (qs, rs) =>
          if c ≠ [] ∨ i = 0 then
            if startsWithID c then (qs, idReply :: rs)
            else (c :: qs, rs)
          else (qs, rs)

/-- `SerialStream.PushCommand`. -/
def pushCommand (cmdString : List Nat) : List (List Nat) × List (List Nat) :=
  routeFrom 0 (splitOnSemi cmdString)

/-- The wire text `C1;C2;…;Cn;` built from delimiter-free commands. -/
def joinSemi (cs : List (List Nat)) : List Nat :=
  concatAll (cs.map (fun c => c ++ [59]))

/-! ## Helper lemmas -/

theorem concatAll_cons (a : List Nat) (L : List (List Nat)) :
    concatAll (a :: L) = a ++ concatAll L := rfl

theorem concatAll_append (L1 L2 : List (List Nat)) :
    concatAll (L1 ++ L2) = concatAll L1 ++ concatAll L2 := by
  induction L1 with
  | nil => rfl
  | cons a L ih =>
      rw [List.cons_append, concatAll_cons, concatAll_cons, ih, List.append_assoc]

theorem length_le_concatAll {x : List Nat} {L : List (List Nat)} (h : x ∈ L) :
    x.length ≤ (concatAll L).length := by
  induction L with
  | nil => simp at h
  | cons a L ih =>
      rcases List.mem_cons.mp h with h | h
      · subst h; simp [concatAll_cons]
      · calc x.length ≤ (concatAll L).length := ih h
          _ ≤ (concatAll (a :: L)).length := by simp [concatAll_cons]

theorem readBytesSemi_spec (l : List Nat) :
    l = (readBytesSemi l).1 ++ (readBytesSemi l).2.1 ∧
    ((readBytesSemi l).2.2 = false →
      (readBytesSemi l).2.1 = [] ∧ (readBytesSemi l).1.count 59 = 0) ∧
    ((readBytesSemi l).2.2 = true →
      ∃ p, (readBytesSemi l).1 = p ++ [59] ∧ p.count 59 = 0) := by
  induction l with
  | nil => simp [readBytesSemi]
  | cons b t ih =>
      by_cases hb : b = 59
      · subst hb
        refine ⟨rfl, ?_, ?_⟩ <;> intro hf
        · simp [readBytesSemi] at hf
        · exact ⟨[], rfl, rfl⟩
      · obtain ⟨h1, h2, h3⟩ := ih
        rcases hr : readBytesSemi t with ⟨d, r, f⟩
        rw [hr] at h1 h2 h3
        simp only at h1 h2 h3
        simp only [readBytesSemi, if_neg hb, hr]
        refine ⟨by rw [h1]; rfl, ?_, ?_⟩ <;> intro hf
        · obtain ⟨hr0, hc⟩ := h2 hf
          exact ⟨hr0, by simp [List.count_cons, hb, hc]⟩
        · obtain ⟨p, hp, hc⟩ := h3 hf
          exact ⟨b :: p, by simp [hp], by simp [List.count_cons, hb, hc]⟩

theorem cutSuffixSemi_spec (l : List Nat) :
    l = (cutSuffixSemi l).1 ++ (if (cutSuffixSemi l).2 then [59] else []) := by
  unfold cutSuffixSemi
  split
  · next t heq =>
      have hrev : l = t.reverse ++ [59] := by
        conv_lhs => rw [← List.reverse_reverse l]
        rw [heq]
        simp
      simpa using hrev
  · next => simp

theorem startsWithUS_eq {l : List Nat} (h : startsWithUS l = true) :
    l = 85 :: 83 :: l.drop 2 := by
  rcases l with _ | ⟨a, _ | ⟨b, t⟩⟩
  · simp [startsWithUS] at h
  · simp [startsWithUS] at h
  · simp only [startsWithUS, Bool.and_eq_true, beq_iff_eq] at h
    rw [h.1, h.2]
    rfl

/-- Each `handleDataChunk` call consumes the wire bytes of the frames
it emits from the front of the accumulator. -/
theorem handle_conservation (s : DemuxState) :
    s.buffer =
      concatAll (((handleDataChunk s).2).map wireBytes) ++ (handleDataChunk s).1.buffer := by
  by_cases hb : s.buffer = []
  · simp [handleDataChunk, hb, concatAll]
  · rcases hr : readBytesSemi s.buffer with ⟨data, rest, found⟩
    obtain ⟨hsplit, hEOF, _⟩ := readBytesSemi_spec s.buffer
    rw [hr] at hsplit hEOF
    simp only at hsplit hEOF
    simp only [handleDataChunk, hb, if_false, hr]
    by_cases h1 : found = false ∧ data.length < chunkLength ∧ s.streaming = false
    · rw [if_pos h1]
      have hrest : rest = [] := (hEOF h1.1).1
      simp [concatAll, hsplit, hrest]
    · rw [if_neg h1]
      by_cases hst : s.streaming
      · rw [if_pos hst]
        rcases hc : cutSuffixSemi data with ⟨payload, hasDelim⟩
        have hcut := cutSuffixSemi_spec data
        rw [hc] at hcut
        simp only at hcut
        simp only [List.map_cons, List.map_nil, concatAll_cons, concatAll, wireBytes]
        rw [hsplit, hcut]
        simp
      · rw [if_neg hst]
        by_cases hus : startsWithUS data = true
        · rw [if_pos hus]
          rcases hc : cutSuffixSemi (data.drop 2) with ⟨payload, hasDelim⟩
          have hcut := cutSuffixSemi_spec (data.drop 2)
          rw [hc] at hcut
          simp only at hcut
          simp only [List.map_cons, List.map_nil, concatAll_cons, concatAll, wireBytes]
          rw [hsplit, startsWithUS_eq hus, hcut]
          simp
        · rw [if_neg hus]
          simp only [List.map_cons, List.map_nil, concatAll_cons, concatAll, wireBytes]
          rw [hsplit]
          simp

/-- Conservation over a whole run of `receiveDataStream`: the initial
accumulator plus all bytes read equals the wire bytes of all emitted
frames followed by the final accumulator. -/
theorem run_conservation (cs : List (List Nat)) :
    ∀ s : DemuxState,
      s.buffer ++ concatAll cs =
        concatAll (((runChunks s cs).2).map wireBytes) ++ (runChunks s cs).1.buffer := by
  induction cs with
  | nil => intro s; simp [runChunks, concatAll]
  | cons c cs ih =>
      intro s
      rcases hd : demuxStep s c with ⟨s1, fs1⟩
      rcases hrun : runChunks s1 cs with ⟨s2, fs2⟩
      have hstep : s.buffer ++ c = concatAll (fs1.map wireBytes) ++ s1.buffer := by
        have h := handle_conservation { streaming := s.streaming, buffer := s.buffer ++ c }
        rw [show handleDataChunk { streaming := s.streaming, buffer := s.buffer ++ c }
              = (s1, fs1) from hd] at h
        exact h
      have hih := ih s1
      rw [hrun] at hih
      simp only [runChunks, hd, hrun]
      calc s.buffer ++ concatAll (c :: cs)
          = (s.buffer ++ c) ++ concatAll cs := by
            rw [concatAll_cons, List.append_assoc]
        _ = concatAll (fs1.map wireBytes) ++ (s1.buffer ++ concatAll cs) := by
            rw [hstep, List.append_assoc]
        _ = concatAll (fs1.map wireBytes) ++ (concatAll (fs2.map wireBytes) ++ s2.buffer) := by
            rw [hih]
        _ = concatAll ((fs1 ++ fs2).map wireBytes) ++ s2.buffer := by
            rw [List.map_append, concatAll_append, List.append_assoc]

/-- Shape of any CAT reply a single `handleDataChunk` call emits:
either the data ends with its single `;` (a delimiter was found), or it
contains no `;` at all (the accumulator reached `chunkLength` without a
delimiter and was emitted as-is). -/
theorem handle_cat_shape (s : DemuxState) {r : List Nat}
    (h : Frame.cat r ∈ (handleDataChunk s).2) :
    (∃ p, r = p ++ [59] ∧ p.count 59 = 0) ∨ r.count 59 = 0 := by
  by_cases hb : s.buffer = []
  · simp [handleDataChunk, hb] at h
  · rcases hr : readBytesSemi s.buffer with ⟨data, rest, found⟩
    obtain ⟨_, hEOF, hfound⟩ := readBytesSemi_spec s.buffer
    rw [hr] at hEOF hfound
    simp only at hEOF hfound
    simp only [handleDataChunk, hb, if_false, hr] at h
    by_cases h1 : found = false ∧ data.length < chunkLength ∧ s.streaming = false
    · rw [if_pos h1] at h
      simp at h
    · rw [if_neg h1] at h
      by_cases hst : s.streaming
      · rw [if_pos hst] at h
        simp at h
      · rw [if_neg hst] at h
        by_cases hus : startsWithUS data = true
        · rw [if_pos hus] at h
          simp at h
        · rw [if_neg hus] at h
          simp only [List.mem_singleton] at h
          have hdr : r = data := by
            injection h
          subst hdr
          cases found with
          | true => exact Or.inl (hfound rfl)
          | false => exact Or.inr (hEOF rfl).2

/-- Shape of CAT replies over a whole run. -/
theorem run_cat_shape (cs : List (List Nat)) :
    ∀ (s : DemuxState) (r : List Nat), Frame.cat r ∈ (runChunks s cs).2 →
      (∃ p, r = p ++ [59] ∧ p.count 59 = 0) ∨ r.count 59 = 0 := by
  induction cs with
  | nil => intro s r h; simp [runChunks] at h
  | cons c cs ih =>
      intro s r h
      rcases hd : demuxStep s c with ⟨s1, fs1⟩
      rcases hrun : runChunks s1 cs with ⟨s2, fs2⟩
      simp only [runChunks, hd, hrun, List.mem_append] at h
      rcases h with h | h
      · exact handle_cat_shape { streaming := s.streaming, buffer := s.buffer ++ c }
          (by rw [show handleDataChunk { streaming := s.streaming, buffer := s.buffer ++ c }
                    = (s1, fs1) from hd]; exact h)
      · exact ih s1 r (by rw [hrun]; exact h)

theorem splitOnSemi_ne_nil (l : List Nat) : splitOnSemi l ≠ [] := by
  cases l with
  | nil => simp [splitOnSemi]
  | cons b t =>
      by_cases hb : b = 59 <;> simp [splitOnSemi, hb]

/-- Splitting on `;` yields delimiter-free pieces. -/
theorem splitOnSemi_no_semi (l : List Nat) : ∀ p ∈ splitOnSemi l, p.count 59 = 0 := by
  induction l with
  | nil =>
      intro p hp
      simp [splitOnSemi] at hp
      simp [hp]
  | cons b t ih =>
      intro p hp
      by_cases hb : b = 59
      · subst hb
        have hp2 : p = [] ∨ p ∈ splitOnSemi t := by
          simpa [splitOnSemi] using hp
        rcases hp2 with hp2 | hp2
        · simp [hp2]
        · exact ih p hp2
      · rcases hsp : splitOnSemi t with _ | ⟨h0, r⟩
        · exact absurd hsp (splitOnSemi_ne_nil t)
        · have hp2 : p = b :: h0 ∨ p ∈ r := by
            simpa [splitOnSemi, hb, hsp] using hp
          rcases hp2 with hp2 | hp2
          · subst hp2
            have h0c : h0.count 59 = 0 := ih h0 (by rw [hsp]; exact List.mem_cons_self _ _)
            simp [List.count_cons, hb, h0c]
          · exact ih p (by rw [hsp]; exact List.mem_cons_of_mem _ hp2)

/-- Splitting a delimiter-free piece followed by `;` peels it off. -/
theorem splitOnSemi_append (c t : List Nat) (hc : c.count 59 = 0) :
    splitOnSemi (c ++ 59 :: t) = c :: splitOnSemi t := by
  induction c with
  | nil => simp [splitOnSemi]
  | cons b c ih =>
      have hb : ¬b = 59 := by
        intro hb
        subst hb
        simp [List.count_cons] at hc
      have hc2 : c.count 59 = 0 := by
        simp [List.count_cons, hb] at hc
        exact hc
      rw [List.cons_append]
      simp only [splitOnSemi, if_neg hb, ih hc2, List.headI, List.tail]

theorem splitOnSemi_joinSemi : ∀ cs : List (List Nat),
    (∀ c ∈ cs, c.count 59 = 0) → splitOnSemi (joinSemi cs) = cs ++ [[]] := by
  intro cs
  induction cs with
  | nil => intro _; simp [joinSemi, concatAll, splitOnSemi]
  | cons c cs ih =>
      intro h
      have hj : joinSemi (c :: cs) = c ++ 59 :: joinSemi cs := by
        simp [joinSemi, concatAll_cons, List.append_assoc]
      rw [hj, splitOnSemi_append _ _ (h c (List.mem_cons_self _ _)),
        ih (fun d hd => h d (List.mem_cons_of_mem _ hd))]
      rfl

/-- Whatever the routing loop puts on the command queue is one of the
pieces it was given. -/
theorem routeFrom_sub : ∀ (ps : List (List Nat)) (i : Nat) (c : List Nat),
    c ∈ (routeFrom i ps).1 → c ∈ ps := by
  intro ps
  induction ps with
  | nil => intro i c h; simp [routeFrom] at h
  | cons q rest ih =>
      intro i c h
      rcases hrf : routeFrom (i + 1) rest with ⟨qs, rs⟩
      simp only [routeFrom, hrf] at h
      by_cases hq : q ≠ [] ∨ i = 0
      · rw [if_pos hq] at h
        by_cases hid : startsWithID q = true
        · rw [if_pos hid] at h
          exact List.mem_cons_of_mem _ (ih (i + 1) c (by rw [hrf]; exact h))
        · rw [if_neg hid] at h
          rcases List.mem_cons.mp h with h | h
          · exact h ▸ List.mem_cons_self _ _
          · exact List.mem_cons_of_mem _ (ih (i + 1) c (by rw [hrf]; exact h))
      · rw [if_neg hq] at h
        exact List.mem_cons_of_mem _ (ih (i + 1) c (by rw [hrf]; exact h))

/-- Routing non-empty, non-`ID` pieces followed by the final empty
piece (at index ≥ 1, so it is skipped) forwards exactly the pieces. -/
theorem routeFrom_clean : ∀ (cs : List (List Nat)) (i : Nat), 1 ≤ i →
    (∀ c ∈ cs, c ≠ [] ∧ startsWithID c = false) →
    routeFrom i (cs ++ [[]]) = (cs, []) := by
  intro cs
  induction cs with
  | nil =>
      intro i hi _
      have hi0 : ¬i = 0 := by omega
      simp [routeFrom, hi0]
  | cons q rest ih =>
      intro i hi h
      have hq := h q (List.mem_cons_self _ _)
      have hrec := ih (i + 1) (by omega) (fun c hc => h c (List.mem_cons_of_mem _ hc))
      simp only [List.cons_append, routeFrom, List.append_eq, hrec, if_pos (Or.inl hq.1),
        hq.2, Bool.false_eq_true, if_false]

/-! ## Serializer lemmas -/

theorem escSemi_ne (b : Nat) : escSemi b ≠ 59 := by
  unfold escSemi
  split <;> omega

theorem map_escSemi_no_semi (s : List Nat) : 59 ∉ s.map escSemi := by
  intro h
  rcases List.mem_map.mp h with ⟨b, _, hb⟩
  exact escSemi_ne b hb

/-- The only source of audio writes in one `select` iteration is the
audio branch with the flag set: the written bytes are the escaped
samples and the flag at emission time is `true`. -/
theorem sendStep_audioW {tx : Bool} {e : OutEvent} {fl : Bool} {w : List Nat}
    (h : (fl, WireItem.audioW w) ∈ (sendStep tx e).2) :
    fl = true ∧ ∃ s, e = OutEvent.audioEv s ∧ w = s.map escSemi := by
  cases e with
  | cmdEv c =>
      by_cases htx : tx <;> by_cases hTX : startsWithTX (c ++ [59]) = true <;>
        simp [sendStep, htx, hTX] at h
  | audioEv smp =>
      by_cases htx : tx
      · simp only [sendStep, htx, if_true, List.mem_singleton, Prod.mk.injEq,
          WireItem.audioW.injEq] at h
        exact ⟨h.1, smp, rfl, h.2⟩
      · simp [sendStep, htx] at h

theorem runSend_audioW (es : List OutEvent) : ∀ (tx fl : Bool) (w : List Nat),
    (fl, WireItem.audioW w) ∈ (runSend tx es).2 →
    fl = true ∧ ∃ s, OutEvent.audioEv s ∈ es ∧ w = s.map escSemi := by
  induction es with
  | nil => intro tx fl w h; simp [runSend] at h
  | cons e es ih =>
      intro tx fl w h
      rcases h1 : sendStep tx e with ⟨tx1, w1⟩
      rcases h2 : runSend tx1 es with ⟨tx2, w2⟩
      simp only [runSend, h1, h2, List.mem_append] at h
      rcases h with h | h
      · obtain ⟨hfl, s, hs, hw⟩ := sendStep_audioW (by rw [h1]; exact h)
        exact ⟨hfl, s, by rw [hs]; exact List.mem_cons_self _ _, hw⟩
      · obtain ⟨hfl, s, hs, hw⟩ := ih tx1 fl w (by rw [h2]; exact h)
        exact ⟨hfl, s, List.mem_cons_of_mem _ hs, hw⟩

/-! ## Claims -/

/-- C1 (amended): for every inbound byte sequence fed through the
frame demultiplexer, the original bytes equal the concatenation, in
emission order, of the emitted frames' wire bytes followed by the bytes
still held in the accumulator — where a CAT reply's wire bytes are its
payload verbatim and an audio frame's wire bytes are its payload plus
the removed decorations: the two-byte `US` sentinel when the frame
opened a streaming burst, and the stripped `;` delimiter when one was
cut (the `;` ending a streaming burst, but also the `;` trailing a
burst-opening `US` frame, after which streaming mode nonetheless
continues).  Equivalently: the payload concatenation is the input with
exactly the `US` openers and the stripped `;` bytes removed; the
original claim failed only in counting the `;` trailing a `US` frame as
burst-ending. -/
theorem c1_conservation (cs : List (List Nat)) :
    concatAll cs =
      concatAll (((runChunks initDemux cs).2).map wireBytes) ++
        (runChunks initDemux cs).1.buffer := by
  have h := run_conservation cs initDemux
  simpa [initDemux] using h

/-- C1 counterexample: on the fully consumed input `USab;CD;` the
demultiplexer opens one streaming burst and ends one streaming burst,
yet emits only the four payload bytes `abCD`: four bytes were removed
(the `US` opener and two `;`), while the claim allows removing only the
two `US` bytes and the single burst-ending `;` (which would leave five
bytes).  The extra removed byte is the `;` trailing the burst-opening
`US` frame, which does not end the burst. -/
theorem c1_counterexample :
    payloadConcat (runChunks initDemux [[85,83,97,98,59,67,68,59], []]).2 = [97,98,67,68] ∧
    openerCount (runChunks initDemux [[85,83,97,98,59,67,68,59], []]).2 = 1 ∧
    burstEndCount (runChunks initDemux [[85,83,97,98,59,67,68,59], []]).2 = 1 ∧
    (runChunks initDemux [[85,83,97,98,59,67,68,59], []]).1.buffer = [] ∧
    (payloadConcat (runChunks initDemux [[85,83,97,98,59,67,68,59], []]).2).length + 2 + 1 ≠
      ([85,83,97,98,59,67,68,59] : List Nat).length := by
  decide

/-- C2 (amended): feeding `US\x80\x81;` then `FA00014074000;` to the
demultiplexer starting in the Idle state yields an audio frame with
payload `\x80\x81`, after which the parser REMAINS in streaming mode
(the `US` branch discards the result of stripping the trailing `;`),
and the subsequent `FA00014074000;` is therefore emitted as a second
audio frame with payload `FA00014074000` (its `;` stripped, ending the
burst and returning the parser to Idle), not as a CAT reply. -/
theorem c2_interleaved :
    (runChunks initDemux [[85,83,128,129,59]]).1.streaming = true ∧
    runChunks initDemux
        [[85,83,128,129,59], [70,65,48,48,48,49,52,48,55,52,48,48,48,59]] =
      ({ streaming := false, buffer := [] },
       [Frame.audio [128,129] true true,
        Frame.audio [70,65,48,48,48,49,52,48,55,52,48,48,48] false true]) := by
  decide

/-- C2 counterexample: after the `US\x80\x81;` frame the parser is not
back in the Idle state, and no CAT reply `FA00014074000;` is ever
emitted for the interleaved input — the claimed trace is wrong. -/
theorem c2_counterexample :
    (runChunks initDemux [[85,83,128,129,59]]).1.streaming ≠ false ∧
    Frame.cat [70,65,48,48,48,49,52,48,55,52,48,48,48,59] ∉
      (runChunks initDemux
        [[85,83,128,129,59], [70,65,48,48,48,49,52,48,55,52,48,48,48,59]]).2 := by
  decide

/-- C3: starting with the transmitting flag false, processing the
command `TX0`, then the audio frame `[0x80, 0x3B, 0x90]`, then the
command `RX` writes exactly `TX0;`, then (after the 10 ms post-TX
settle) `\x80\x3A\x90`, then (preceded by a 10 ms pause, because the
prior state was transmitting) the single guard byte `;`, then `RX;`,
in that order, ending not transmitting. -/
theorem c3_tx_cycle :
    runSend false
        [OutEvent.cmdEv [84,88,48], OutEvent.audioEv [128,59,144], OutEvent.cmdEv [82,88]] =
      (false,
       [(false, WireItem.cmdW [84,88,48,59]),
        (true, WireItem.sleepMs 10),
        (true, WireItem.audioW [128,58,144]),
        (true, WireItem.sleepMs 10),
        (true, WireItem.guardW),
        (false, WireItem.cmdW [82,88,59])]) := by
  decide

/-- C4: feeding `C1;C2;…;Cn;` built from commands C1,…,Cn (commands in
the data-model sense: non-empty, delimiter-free ASCII text) none of
which begins with `ID` through `pushCommand` enqueues exactly
`[C1, …, Cn]` in order on the outbound command queue and nothing on the
inbound reply queue. -/
theorem c4_roundtrip (cs : List (List Nat)) (hne : cs ≠ [])
    (h : ∀ c ∈ cs, c ≠ [] ∧ c.count 59 = 0 ∧ startsWithID c = false) :
    pushCommand (joinSemi cs) = (cs, []) := by
  have hsp : splitOnSemi (joinSemi cs) = cs ++ [[]] :=
    splitOnSemi_joinSemi cs (fun c hc => (h c hc).2.1)
  unfold pushCommand
  rw [hsp]
  rcases cs with _ | ⟨c0, cs⟩
  · exact absurd rfl hne
  · have h0 := h c0 (List.mem_cons_self _ _)
    have hrest := routeFrom_clean cs (0 + 1) (by omega)
      (fun c hc => ⟨(h c (List.mem_cons_of_mem _ hc)).1,
                    (h c (List.mem_cons_of_mem _ hc)).2.2⟩)
    simp [routeFrom, hrest, h0.2.2]

/-- C4 witness at the command list `["FA", "MD2"]`. -/
theorem c4_witness :
    pushCommand (joinSemi [[70,65], [77,68,50]]) = ([[70,65], [77,68,50]], []) :=
  c4_roundtrip [[70,65], [77,68,50]] (by decide) (by decide)

/-- C5 (amended): a `pushCommand` call with the empty string enqueues
exactly one empty command onto the outbound command queue (the empty
first piece is routed because it is the first piece) and nothing onto
the inbound reply queue; successive calls each enqueue one more empty
command, so they are not no-ops. -/
theorem c5_empty_push : pushCommand [] = ([[]], []) := by
  decide

/-- C5 counterexample: a `pushCommand` call with the empty string does
not leave both queues untouched. -/
theorem c5_counterexample : pushCommand [] ≠ ([], []) := by
  decide

/-- C6 (amended): every CAT reply frame the demultiplexer emits either
ends with `;` and contains exactly one `;` (the case where a delimiter
was found), or contains no `;` at all (the case where a delimiterless
accumulation of at least `chunkLength` bytes outside streaming mode is
emitted as a reply without any delimiter).  The original claim failed
on the second case. -/
theorem c6_cat_shape (cs : List (List Nat)) (r : List Nat)
    (h : Frame.cat r ∈ (runChunks initDemux cs).2) :
    (r.getLast? = some 59 ∧ r.count 59 = 1) ∨ r.count 59 = 0 := by
  rcases run_cat_shape cs initDemux r h with ⟨p, hp, hc⟩ | hc
  · subst hp
    refine Or.inl ⟨?_, ?_⟩
    · simp
    · simp [List.count_append, List.count_cons, hc]
  · exact Or.inr hc

/-- C6 witness at the single read `FA;`. -/
theorem c6_witness :
    (([70,65,59] : List Nat).getLast? = some 59 ∧ ([70,65,59] : List Nat).count 59 = 1) ∨
      ([70,65,59] : List Nat).count 59 = 0 :=
  c6_cat_shape [[70,65,59]] [70,65,59] (by decide)

/-- C6 counterexample: a single 48-byte read containing no `;` and not
starting with `US` is emitted as a CAT reply that does not end with the
delimiter. -/
theorem c6_counterexample :
    Frame.cat (List.replicate 48 65) ∈ (runChunks initDemux [List.replicate 48 65]).2 ∧
    (List.replicate 48 65).getLast? ≠ some 59 := by
  decide

/-- C7: every outbound audio frame the serializer writes contains no
`0x3B` byte: it is exactly some dequeued audio frame with every `0x3B`
sample replaced by `0x3A` and every other byte unchanged
(`escSemi` is the identity off `0x3B`). -/
theorem c7_audio_escape (es : List OutEvent) (fl : Bool) (w : List Nat)
    (h : (fl, WireItem.audioW w) ∈ (runSend false es).2) :
    59 ∉ w ∧ ∃ s, OutEvent.audioEv s ∈ es ∧ w = s.map escSemi := by
  obtain ⟨_, s, hs, hw⟩ := runSend_audioW es false fl w h
  refine ⟨?_, s, hs, hw⟩
  rw [hw]
  exact map_escSemi_no_semi s

/-- C7 witness: after a `TX` command, the frame `[0x3B]` is written as
`[0x3A]`. -/
theorem c7_witness :
    59 ∉ ([58] : List Nat) ∧
    ∃ s, OutEvent.audioEv s ∈ [OutEvent.cmdEv [84,88], OutEvent.audioEv [59]] ∧
      ([58] : List Nat) = s.map escSemi :=
  c7_audio_escape [OutEvent.cmdEv [84,88], OutEvent.audioEv [59]] true [58] (by decide)

/-- C8: the serializer never writes audio while the transmitting flag
is false: an audio frame dequeued while not transmitting produces no
wire action and leaves the flag unchanged, and in any run every audio
write is emitted with the flag true. -/
theorem c8_audio_drop (t : Bool) (f : List Nat) (es : List OutEvent)
    (fl : Bool) (w : List Nat) :
    (t = false → sendStep t (OutEvent.audioEv f) = (t, [])) ∧
    ((fl, WireItem.audioW w) ∈ (runSend false es).2 → fl = true) := by
  constructor
  · intro ht
    subst ht
    simp [sendStep]
  · intro h
    exact (runSend_audioW es false fl w h).1

/-- C8 witness: the frame `[1, 2]` dequeued while not transmitting is
dropped, and the audio write `[7]` after a `TX` command carries the
flag true. -/
theorem c8_witness :
    sendStep false (OutEvent.audioEv [1,2]) = (false, []) ∧ (true : Bool) = true :=
  ⟨(c8_audio_drop false [1,2] [OutEvent.cmdEv [84,88], OutEvent.audioEv [7]] true [7]).1 rfl,
   (c8_audio_drop false [1,2] [OutEvent.cmdEv [84,88], OutEvent.audioEv [7]] true [7]).2
     (by decide)⟩

/-- C9 (amended): every inbound audio frame the demultiplexer emits has
length at most the total number of bytes delivered by the link; the
`chunkLength` (48) bound of the original claim holds only while the
accumulator holds at most `chunkLength` bytes, and fails once it
accumulates more delimiterless bytes than that across reads. -/
theorem c9_audio_bound (cs : List (List Nat)) (p : List Nat) (op d : Bool)
    (h : Frame.audio p op d ∈ (runChunks initDemux cs).2) :
    p.length ≤ (concatAll cs).length := by
  have hcons := run_conservation cs initDemux
  rw [show initDemux.buffer = [] from rfl, List.nil_append] at hcons
  have hw : (wireBytes (Frame.audio p op d)).length
      ≤ (concatAll (((runChunks initDemux cs).2).map wireBytes)).length :=
    length_le_concatAll (List.mem_map_of_mem _ h)
  have hple : p.length ≤ (wireBytes (Frame.audio p op d)).length := by
    cases op <;> cases d <;> simp [wireBytes] <;> omega
  have hlen := congrArg List.length hcons
  simp only [List.length_append] at hlen
  omega

/-- C9 witness at the single read `US1;`. -/
theorem c9_witness :
    ([49] : List Nat).length ≤ (concatAll [[85,83,49,59]]).length :=
  c9_audio_bound [[85,83,49,59]] [49] true true (by decide)

/-- C9 counterexample: two reads of exactly 48 bytes each (`US;`
followed by 45 delimiterless bytes, then 48 more delimiterless bytes)
make the demultiplexer emit an audio frame of 93 bytes, exceeding
`chunkLength`. -/
theorem c9_counterexample :
    (([85,83,59] ++ List.replicate 45 128 : List Nat)).length = 48 ∧
    (List.replicate 48 128 : List Nat).length = 48 ∧
    Frame.audio (List.replicate 93 128) false false ∈
      (runChunks initDemux [[85,83,59] ++ List.replicate 45 128, List.replicate 48 128]).2 ∧
    ¬(List.replicate 93 128 : List Nat).length ≤ chunkLength := by
  decide

/-- C10: every command `PushCommand` enqueues onto the outbound command
queue contains no `;` byte anywhere, for every input string. -/
theorem c10_pieces_clean (s c : List Nat) (h : c ∈ (pushCommand s).1) : 59 ∉ c := by
  have hc : c.count 59 = 0 := splitOnSemi_no_semi s c (routeFrom_sub _ 0 c h)
  exact List.count_eq_zero.mp hc

/-- C10 witness at the input `A;B`. -/
theorem c10_witness : 59 ∉ ([65] : List Nat) :=
  c10_pieces_clean [65,59,66] [65] (by decide)

end TrusdxGo
